import Mathlib

/-!
Shallow embedding of the stack-listing subsystem of the repository
(`cli/command/stack/kubernetes/list.go` and its collaborators): namespace
resolution, the authorization-denied discovery fallback, the namespace
discovery HTTP client, and the natural-order result sorter.
-/

set_option maxHeartbeats 1000000

namespace StackList

/-- Error taxonomy of the listing subsystem (spec §7).  `forbidden` is the
class recognised by `apierrs.IsForbidden`; all other backend and discovery
failures are separate constructors so that "returned unchanged" is
expressible. -/
inductive Err where
  | forbidden (msg : String)
  | backend (msg : String)
  | transport (msg : String)
  | protocol (status : Nat) (body : String)
  | decode (msg : String)
  | config (msg : String)
  deriving DecidableEq, Repr

/-- Embeds `apierrs.IsForbidden(err)`: true exactly on the
authorization-denied error class. -/
def isForbidden : Err → Bool
  | .forbidden _ => true
  | _ => false

/-- Embeds `formatter.Stack` (name, service count, orchestrator tag,
namespace; the namespace field is called `nspace` because `namespace` is a
Lean keyword). -/
structure Stack where
  name : String
  services : Nat
  orchestrator : String
  nspace : String
  deriving DecidableEq, Repr

instance {ε α : Type} [DecidableEq ε] [DecidableEq α] : DecidableEq (Except ε α)
  | .ok a, .ok b =>
    if h : a = b then .isTrue (by rw [h])
    else .isFalse (by intro hh; cases hh; exact h rfl)
  | .ok _, .error _ => .isFalse (by intro hh; cases hh)
  | .error _, .ok _ => .isFalse (by intro hh; cases hh)
  | .error e, .error f =>
    if h : e = f then .isTrue (by rw [h])
    else .isFalse (by intro hh; cases hh; exact h rfl)

/-- The cluster backend collaborator (spec §6): `getStacks` with
`AllNamespaces=true` is `listAll`, `getStacks` with a namespace-scoped
`Options` is `listInNamespace`. -/
structure Backend where
  listAll : Except Err (List Stack)
  listInNamespace : String → Except Err (List Stack)

/-- One backend query issued during aggregation, for stating trace
properties. -/
inductive Query where
  | all
  | inNamespace (nm : String)
  | discovery
  deriving DecidableEq, Repr

/-- Embeds the per-namespace loop of `getStacksWithAllNamespaces` /
`getStacksWithNamespaces` (kubernetes/list.go lines 44-50 and 60-66):
iterate over the namespaces in order, appending each result to the
accumulator, returning the first error with no partial list.  The second
component is the trace of issued queries. -/
def listEachT (b : Backend) (acc : List Stack) :
    List String → Except Err (List Stack) × List Query
  | [] => (.ok acc, [])
  | nm :: rest =>
    match b.listInNamespace nm with
    | .error e => (.error e, [Query.inNamespace nm])
    | .ok ss =>
      let (r, qs) := listEachT b (acc ++ ss) rest
      (r, Query.inNamespace nm :: qs)

/-- Embeds `options.List` (`opts.Format`, `opts.Namespaces`,
`opts.AllNamespaces`). -/
structure ListOpts where
  format : String
  namespaces : List String
  allNamespaces : Bool
  deriving DecidableEq, Repr

/-- Output of the all-namespaces aggregator: the returned value, the trace
of issued queries, and the final value of the callee's local copy of
`opts` (Go passes `options.List` by value, so this copy is invisible to
the caller). -/
structure AggOut where
  result : Except Err (List Stack)
  trace : List Query
  optsAfter : ListOpts
  deriving Repr

/-- Embeds `getStacksWithAllNamespaces` (kubernetes/list.go lines 33-52):
try the all-namespaces query; on success or a non-forbidden error return
`(stacks, err)` unchanged; on a forbidden error run discovery
(`getUserVisibleNamespaces`, whose outcome is the parameter `d`); if
discovery fails, log it and return the ORIGINAL forbidden error; otherwise
clear `AllNamespaces` on the local copy of `opts` and query each
discovered namespace in order, fail-fast. -/
def getStacksWithAllNamespaces (b : Backend) (d : Except Err (List String))
    (opts : ListOpts) : AggOut :=
  match b.listAll with
  | .ok sts => ⟨.ok sts, [Query.all], opts⟩
  | .error err =>
    if isForbidden err = false then ⟨.error err, [Query.all], opts⟩
    else
      match d with
      | .error _ => ⟨.error err, [Query.all, Query.discovery], opts⟩
      | .ok nms =>
        let opts2 := { opts with allNamespaces := false }
        let (r, qs) := listEachT b [] nms
        ⟨r, Query.all :: Query.discovery :: qs, opts2⟩

/-- Embeds the caller side of the aggregation (`GetStacks` /
`runList`): Go passes the `options.List` struct by value, so after the
call the caller still holds its own unchanged `opts` value. -/
def callerInvoke (b : Backend) (d : Except Err (List String))
    (callerOpts : ListOpts) : Except Err (List Stack) × ListOpts :=
  ((getStacksWithAllNamespaces b d callerOpts).result, callerOpts)

/-- Embeds the namespace-set semantics of `getNamespaces`
(kubernetes/list.go lines 70-80) together with Go's map iteration: the map
`mnms` holds exactly the distinct entries of the `--namespace` flag value
`nms`, and `for nm := range mnms` visits each key exactly once in an
order Go does not specify.  `ord` is a possible iteration order iff it
has no duplicates and contains exactly the members of `nms`. -/
def IsIterationOrder (nms ord : List String) : Prop :=
  ord.Nodup ∧ ∀ x, x ∈ ord ↔ x ∈ nms

/-- Embeds `getStacksWithNamespaces` (kubernetes/list.go lines 54-68) for
a given map iteration order `ord`: query each namespace of the
de-duplicated set in that order, fail-fast, concatenating results. -/
def getStacksWithNamespacesT (b : Backend) (ord : List String) :
    Except Err (List Stack) × List Query :=
  listEachT b [] ord

/-- Embeds the entry decision of `GetStacks` (kubernetes/list.go lines
23-26): when the client reports both orchestrator backends
(`ClientInfo().HasAll()`) and the caller did not explicitly set the
`--namespace` flag (`!flags.Changed("namespace")`), force
`AllNamespaces = true`; otherwise leave `opts` as given. -/
def effectiveOpts (hasAll namespaceChanged : Bool) (opts : ListOpts) : ListOpts :=
  if hasAll && !namespaceChanged then { opts with allNamespaces := true } else opts

/-- Embeds `url.URL` as far as the discovery client uses it: scheme, host
and path. -/
structure URL where
  scheme : String
  host : String
  path : String
  deriving DecidableEq, Repr

/-- Embeds `tlsconfig.Options`: opaque TLS client material already
resolved by configuration (its contents are irrelevant here, only its
presence or absence matters). -/
structure TLSOptions where
  material : String
  deriving DecidableEq, Repr

/-- Embeds `http.Response` as far as the discovery handler reads it: the
status code and the outcome of `ioutil.ReadAll(resp.Body)` (which may
itself fail). -/
structure HTTPResponse where
  statusCode : Nat
  body : Except Err String

/-- Embeds `makeRequest` (kubernetes/list.go lines 135-155): if no TLS
options are configured, fail with the configuration error `"missing TLS
options for https"` before building any client; if `tlsconfig.Client`
fails, return its error; otherwise issue exactly one GET to `endpoint`
(recorded in the trace), returning the transport error on connection
failure and otherwise the handler's verdict on the response.  `tlsClient`
stands for `tlsconfig.Client` and `get` for `httpClient.Get`. -/
def makeRequest (tlsOptions : Option TLSOptions)
    (tlsClient : TLSOptions → Except Err Unit)
    (get : URL → Except Err HTTPResponse) (endpoint : URL)
    (handler : HTTPResponse → Except Err (List String)) :
    Except Err (List String) × List URL :=
  match tlsOptions with
  | none => (.error (.config "missing TLS options for https"), [])
  | some t =>
    match tlsClient t with
    | .error e => (.error e, [])
    | .ok _ =>
      match get endpoint with
      | .error e => (.error e, [endpoint])
      | .ok resp => (handler resp, [endpoint])

/-- Embeds the response handler closed over by `getUserVisibleNamespaces`
(kubernetes/list.go lines 120-132): a body read failure is wrapped as a
decode-class error, a non-200 status becomes an error carrying the raw
body, and an `json.Unmarshal` failure (modelled by `decodeList` returning
`none`) becomes a decode error; otherwise the decoded namespace names are
returned. -/
def namespacesHandler (decodeList : String → Option (List String))
    (resp : HTTPResponse) : Except Err (List String) :=
  match resp.body with
  | .error _ => .error (.decode "unable to read response")
  | .ok body =>
    if resp.statusCode ≠ 200 then .error (.protocol resp.statusCode body)
    else
      match decodeList body with
      | none => .error (.decode body)
      | some nms => .ok nms

/-- Embeds `getUserVisibleNamespaces` (kubernetes/list.go lines 111-133):
parse the daemon host (`parseHost` is the outcome of `url.Parse`),
overwrite the scheme with `"https"` and the path with
`"/kubernetesNamespaces"`, and run `makeRequest` with the namespace-list
handler.  The second component is the trace of HTTP requests issued. -/
def getUserVisibleNamespaces (parseHost : Except Err URL)
    (tlsOptions : Option TLSOptions)
    (tlsClient : TLSOptions → Except Err Unit)
    (get : URL → Except Err HTTPResponse)
    (decodeList : String → Option (List String)) :
    Except Err (List String) × List URL :=
  match parseHost with
  | .error e => (.error e, [])
  | .ok endpoint =>
    let endpoint2 := { endpoint with scheme := "https", path := "/kubernetesNamespaces" }
    makeRequest tlsOptions tlsClient get endpoint2 (namespacesHandler decodeList)

/-- Embeds the effective-namespace logic of `WrapCli` (kubecli lines
66-73): start from the namespace configured in the kubeconfig context and
override it with `opts.Namespace` only when that is different from the
literal `"default"`. -/
def wrapCliNamespace (configNamespace optsNamespace : String) : String :=
  if optsNamespace ≠ "default" then optsNamespace else configNamespace

/-- Tokenisation worker: `acc` carries the numeric value of the digit run
being read, if one is open.  A maximal run of digits becomes a numeric
token `(0, value)`, any other character becomes a character token
`(1, code)`. -/
def natTokensAux : Option Nat → List Char → List (Nat × Nat)
  | none, [] => []
  | some n, [] => [(0, n)]
  | none, c :: cs =>
    if c.isDigit then natTokensAux (some (c.toNat - 48)) cs
    else (1, c.toNat) :: natTokensAux none cs
  | some n, c :: cs =>
    if c.isDigit then natTokensAux (some (10 * n + (c.toNat - 48))) cs
    else (0, n) :: (1, c.toNat) :: natTokensAux none cs

/-- Modelled from the spec: the tokenisation underlying natural ordering
(spec §4.5 and glossary; the comparison function `sortorder.NaturalLess`
lives in the external `vbom.ml/util/sortorder` package, outside this
repository's source tree).  Numeric tokens compare numerically and order
before character tokens. -/
def natTokens (cs : List Char) : List (Nat × Nat) :=
  natTokensAux none cs

/-- Strict order on tokens: compare the kind first (numeric tokens before
character tokens), then the payload. -/
def tokLt (a b : Nat × Nat) : Bool :=
  a.1 < b.1 || (a.1 = b.1 && a.2 < b.2)

/-- Lexicographic strict order on token lists; a proper prefix orders
first. -/
def lexLt : List (Nat × Nat) → List (Nat × Nat) → Bool
  | [], [] => false
  | [], _ :: _ => true
  | _ :: _, [] => false
  | a :: as, b :: bs =>
    if tokLt a b then true else if tokLt b a then false else lexLt as bs

/-- Modelled from the spec: `sortorder.NaturalLess` (spec §4.5), the
locale-naive natural ordering — digit runs compared numerically, all
other characters bytewise. -/
def naturalLess (s t : String) : Bool :=
  lexLt (natTokens s.data) (natTokens t.data)

/-- The non-strict comparison the sorter needs: `a` may stay before `b`
exactly when `b` is not naturally smaller, mirroring
`sort.Slice(stacks, func(i, j int) bool { return
sortorder.NaturalLess(stacks[i].Name, stacks[j].Name) })` in `format`. -/
def stackLE (a b : Stack) : Bool :=
  !naturalLess b.name a.name

/-- Propositional form of `stackLE`, the order the sorter establishes. -/
def SLE (a b : Stack) : Prop :=
  stackLE a b = true

instance : DecidableRel SLE := fun a b =>
  inferInstanceAs (Decidable (stackLE a b = true))

/-- Modelled from the spec: the ResultSorter (spec §4.5) — a stable sort
of the merged records by natural order on `name`.  The source calls Go's
`sort.Slice` with `sortorder.NaturalLess`; the sorting routine itself is
standard-library code outside this repository's source tree, and §4.5
specifies a sort that is stable for equal names, modelled here by a
stable insertion sort. -/
def sortStacks (l : List Stack) : List Stack :=
  List.insertionSort SLE l

/-- Concrete stack records for witness statements. -/
def stA : Stack := ⟨"stk-a", 2, "Kubernetes", "a"⟩

def stB : Stack := ⟨"stk-b", 1, "Kubernetes", "b"⟩

/-- A concrete cluster backend whose all-namespaces query is denied and
which can list namespaces `"a"` and `"b"`, for witness statements. -/
def demoBackend : Backend where
  listAll := .error (.forbidden "stacks is forbidden")
  listInNamespace := fun nm =>
    if nm = "a" then .ok [stA]
    else if nm = "b" then .ok [stB]
    else .error (.backend "namespace not found")

/-- Per-namespace results of `demoBackend`, as a function. -/
def demoRs (nm : String) : List Stack :=
  if nm = "a" then [stA] else if nm = "b" then [stB] else []

/-- A concrete `ListRequest` for witness statements. -/
def demoOpts : ListOpts := ⟨"", ["default"], true⟩

/-- A concrete backend whose all-namespaces query fails with a generic,
non-authorization error, for witness statements. -/
def demoBackendErr : Backend where
  listAll := .error (.backend "connection refused")
  listInNamespace := fun _ => .ok []

/-- Concrete collaborators of the discovery client, for witness
statements. -/
def demoTlsClient : TLSOptions → Except Err Unit := fun _ => .ok ()

def demoGet : URL → Except Err HTTPResponse := fun _ => .ok ⟨200, .ok "{}"⟩

def demoDecode : String → Option (List String) := fun _ => some []

/-! Order-theoretic facts about the natural ordering, needed to apply the
generic sorting lemmas. -/

theorem tokLt_irrefl (a : Nat × Nat) : tokLt a a = false := by
  cases a; simp [tokLt]

theorem tokLt_asymm {a b : Nat × Nat} (h : tokLt a b = true) : tokLt b a = false := by
  cases a; cases b; simp [tokLt] at h ⊢; omega

theorem tokLt_connex {a b : Nat × Nat} (h1 : tokLt a b = false)
    (h2 : tokLt b a = false) : a = b := by
  cases a; cases b; simp [tokLt] at h1 h2 ⊢; omega

theorem tokLt_trans {a b c : Nat × Nat} (h1 : tokLt a b = true)
    (h2 : tokLt b c = true) : tokLt a c = true := by
  cases a; cases b; cases c; simp [tokLt] at h1 h2 ⊢; omega

theorem lexLt_cons_iff {a b : Nat × Nat} {as bs : List (Nat × Nat)} :
    lexLt (a :: as) (b :: bs) = true ↔
      tokLt a b = true ∨ (a = b ∧ lexLt as bs = true) := by
  cases hab : tokLt a b with
  | true => simp [lexLt, hab]
  | false =>
    cases hba : tokLt b a with
    | true =>
      have hne : a ≠ b := by
        rintro rfl
        rw [tokLt_irrefl] at hba
        exact Bool.noConfusion hba
      simp [lexLt, hab, hba, hne]
    | false =>
      have heq : a = b := tokLt_connex hab hba
      subst heq
      simp [lexLt, hab]

theorem lexLt_irrefl : ∀ l, lexLt l l = false
  | [] => rfl
  | a :: as => by
    rw [show lexLt (a :: as) (a :: as) = lexLt as as by
      simp [lexLt, tokLt_irrefl]]
    exact lexLt_irrefl as

theorem lexLt_asymm : ∀ {l₁ l₂}, lexLt l₁ l₂ = true → lexLt l₂ l₁ = false
  | [], [], h => by simp [lexLt] at h
  | [], _ :: _, _ => rfl
  | _ :: _, [], h => by simp [lexLt] at h
  | a :: as, b :: bs, h => by
    rcases lexLt_cons_iff.mp h with hab | ⟨rfl, htail⟩
    · rw [Bool.eq_false_iff]
      intro hba
      rcases lexLt_cons_iff.mp hba with hba' | ⟨rfl, _⟩
      · rw [tokLt_asymm hab] at hba'; exact Bool.false_ne_true hba'
      · rw [tokLt_irrefl] at hab; exact Bool.false_ne_true hab
    · rw [Bool.eq_false_iff]
      intro hba
      rcases lexLt_cons_iff.mp hba with hba' | ⟨-, htail'⟩
      · rw [tokLt_irrefl] at hba'; exact Bool.false_ne_true hba'
      · rw [lexLt_asymm htail] at htail'; exact Bool.false_ne_true htail'

theorem lexLt_connex : ∀ {l₁ l₂}, lexLt l₁ l₂ = false → lexLt l₂ l₁ = false → l₁ = l₂
  | [], [], _, _ => rfl
  | [], _ :: _, h, _ => by simp [lexLt] at h
  | _ :: _, [], _, h => by simp [lexLt] at h
  | a :: as, b :: bs, h1, h2 => by
    have hab : tokLt a b = false := by
      rw [Bool.eq_false_iff]; intro hab
      rw [lexLt_cons_iff.mpr (Or.inl hab)] at h1
      exact Bool.noConfusion h1
    have hba : tokLt b a = false := by
      rw [Bool.eq_false_iff]; intro hba
      rw [lexLt_cons_iff.mpr (Or.inl hba)] at h2
      exact Bool.noConfusion h2
    have heq := tokLt_connex hab hba
    subst heq
    have t1 : lexLt as bs = false := by
      rw [Bool.eq_false_iff]; intro ht
      rw [lexLt_cons_iff.mpr (Or.inr ⟨rfl, ht⟩)] at h1
      exact Bool.noConfusion h1
    have t2 : lexLt bs as = false := by
      rw [Bool.eq_false_iff]; intro ht
      rw [lexLt_cons_iff.mpr (Or.inr ⟨rfl, ht⟩)] at h2
      exact Bool.noConfusion h2
    rw [lexLt_connex t1 t2]

theorem lexLt_trans : ∀ {l₁ l₂ l₃}, lexLt l₁ l₂ = true → lexLt l₂ l₃ = true →
    lexLt l₁ l₃ = true
  | [], _, _ :: _, _, _ => rfl
  | [], b :: bs, [], _, h2 => by simp [lexLt] at h2
  | [], [], [], h1, _ => by simp [lexLt] at h1
  | _ :: _, [], _, h1, _ => by simp [lexLt] at h1
  | _ :: _, _ :: _, [], _, h2 => by simp [lexLt] at h2
  | a :: as, b :: bs, c :: cs, h1, h2 => by
    rcases lexLt_cons_iff.mp h1 with hab | ⟨rfl, t1⟩
    · rcases lexLt_cons_iff.mp h2 with hbc | ⟨rfl, t2⟩
      · exact lexLt_cons_iff.mpr (Or.inl (tokLt_trans hab hbc))
      · exact lexLt_cons_iff.mpr (Or.inl hab)
    · rcases lexLt_cons_iff.mp h2 with hbc | ⟨rfl, t2⟩
      · exact lexLt_cons_iff.mpr (Or.inl hbc)
      · exact lexLt_cons_iff.mpr (Or.inr ⟨rfl, lexLt_trans t1 t2⟩)

theorem naturalLess_asymm {s t : String} (h : naturalLess s t = true) :
    naturalLess t s = false :=
  lexLt_asymm h

theorem naturalLess_connex {s t : String} (h1 : naturalLess s t = false)
    (h2 : naturalLess t s = false) : natTokens s.data = natTokens t.data :=
  lexLt_connex h1 h2

theorem naturalLess_irrefl (s : String) : naturalLess s s = false :=
  lexLt_irrefl _

theorem SLE_total : ∀ a b : Stack, SLE a b ∨ SLE b a := by
  intro a b
  by_cases h : naturalLess b.name a.name = true
  · right
    have := naturalLess_asymm h
    simp [SLE, stackLE, this]
  · left
    simp only [Bool.not_eq_true] at h
    simp [SLE, stackLE, h]

theorem SLE_trans : ∀ a b c : Stack, SLE a b → SLE b c → SLE a c := by
  intro a b c hab hbc
  simp only [SLE, stackLE, Bool.not_eq_true'] at hab hbc ⊢
  rw [Bool.eq_false_iff]
  intro hca
  cases h : naturalLess a.name b.name with
  | false =>
    have htok := naturalLess_connex h hab
    unfold naturalLess at hca hbc
    rw [htok] at hca
    rw [hca] at hbc
    exact Bool.noConfusion hbc
  | true =>
    have hcb : naturalLess c.name b.name = true := lexLt_trans hca h
    rw [hcb] at hbc
    exact Bool.noConfusion hbc

/-! Behaviour of the per-namespace query loop. -/

theorem listEachT_ok (b : Backend) (rs : String → List Stack) :
    ∀ (nms : List String) (acc : List Stack),
      (∀ nm ∈ nms, b.listInNamespace nm = .ok (rs nm)) →
      listEachT b acc nms =
        (.ok (acc ++ (nms.map rs).flatten), nms.map Query.inNamespace)
  | [], acc, _ => by simp [listEachT]
  | nm :: rest, acc, h => by
    have hnm := h nm (List.mem_cons_self nm rest)
    have ih := listEachT_ok b rs rest (acc ++ rs nm)
      (fun x hx => h x (List.mem_cons_of_mem _ hx))
    simp [listEachT, hnm, ih, List.append_assoc]

theorem listEachT_error (b : Backend) (rs : String → List Stack) (e : Err)
    (bad : String) (hbad : b.listInNamespace bad = .error e) :
    ∀ (pre : List String) (post : List String) (acc : List Stack),
      (∀ nm ∈ pre, b.listInNamespace nm = .ok (rs nm)) →
      listEachT b acc (pre ++ bad :: post) =
        (.error e, (pre ++ [bad]).map Query.inNamespace)
  | [], post, acc, _ => by simp [listEachT, hbad]
  | nm :: pre, post, acc, h => by
    have hnm := h nm (List.mem_cons_self nm pre)
    have ih := listEachT_error b rs e bad hbad pre post (acc ++ rs nm)
      (fun x hx => h x (List.mem_cons_of_mem _ hx))
    simp [listEachT, hnm, ih]

theorem getStacksWithAllNamespaces_fallback (b : Backend) (e : Err)
    (nms : List String) (opts : ListOpts)
    (hAll : b.listAll = .error e) (hF : isForbidden e = true) :
    getStacksWithAllNamespaces b (.ok nms) opts =
      ⟨(listEachT b [] nms).1,
        Query.all :: Query.discovery :: (listEachT b [] nms).2,
        { opts with allNamespaces := false }⟩ := by
  rcases hl : listEachT b [] nms with ⟨r, qs⟩
  simp [getStacksWithAllNamespaces, hAll, hF, hl]

/-- C1: with `allNamespaces=true`, when the all-namespaces query fails
with an authorization-denied error, the aggregator runs namespace
discovery and then issues exactly one per-namespace query for each
discovered namespace, in the discovered order, returning the
concatenation of their results; if any per-namespace query fails, the
aggregator returns that error and no partial result list. -/
theorem fallback_queries_each_discovered_namespace (b : Backend) (e : Err)
    (nms : List String) (opts : ListOpts) (rs : String → List Stack)
    (hAll : b.listAll = .error e) (hF : isForbidden e = true) :
    ((∀ nm ∈ nms, b.listInNamespace nm = .ok (rs nm)) →
      getStacksWithAllNamespaces b (.ok nms) opts =
        ⟨.ok (nms.map rs).flatten,
          Query.all :: Query.discovery :: nms.map Query.inNamespace,
          { opts with allNamespaces := false }⟩) ∧
    (∀ pre bad post e2, nms = pre ++ bad :: post →
      (∀ nm ∈ pre, b.listInNamespace nm = .ok (rs nm)) →
      b.listInNamespace bad = .error e2 →
      getStacksWithAllNamespaces b (.ok nms) opts =
        ⟨.error e2,
          Query.all :: Query.discovery :: (pre ++ [bad]).map Query.inNamespace,
          { opts with allNamespaces := false }⟩) := by
  constructor
  · intro hok
    rw [getStacksWithAllNamespaces_fallback b e nms opts hAll hF,
      listEachT_ok b rs nms [] hok]
    simp
  · intro pre bad post e2 hsplit hok hbad
    subst hsplit
    rw [getStacksWithAllNamespaces_fallback b e _ opts hAll hF,
      listEachT_error b rs e2 bad hbad pre post [] hok]

/-- Witness for C1 at a concrete backend: discovery returns `["a", "b"]`
and both per-namespace queries succeed, so the two queries are issued in
order and their results merged; and with discovery returning
`["a", "c", "b"]` where `"c"` fails, the whole aggregation fails with
that error after the `"c"` query. -/
theorem fallback_queries_each_discovered_namespace_witness :
    getStacksWithAllNamespaces demoBackend (.ok ["a", "b"]) demoOpts =
      ⟨.ok [stA, stB],
        [Query.all, Query.discovery, Query.inNamespace "a", Query.inNamespace "b"],
        { demoOpts with allNamespaces := false }⟩ ∧
    getStacksWithAllNamespaces demoBackend (.ok ["a", "c", "b"]) demoOpts =
      ⟨.error (.backend "namespace not found"),
        [Query.all, Query.discovery, Query.inNamespace "a", Query.inNamespace "c"],
        { demoOpts with allNamespaces := false }⟩ := by
  constructor
  · have h := (fallback_queries_each_discovered_namespace demoBackend
      (.forbidden "stacks is forbidden") ["a", "b"] demoOpts demoRs rfl rfl).1
      (by decide)
    simpa [demoRs, stA, stB] using h
  · have h := (fallback_queries_each_discovered_namespace demoBackend
      (.forbidden "stacks is forbidden") ["a", "c", "b"] demoOpts demoRs rfl rfl).2
      ["a"] "c" ["b"] (.backend "namespace not found") rfl (by decide) (by decide)
    simpa using h

/-- C2: with `allNamespaces=true`, when the all-namespaces query fails
with an error that is not authorization-denied, the aggregator returns
that error unchanged and attempts neither namespace discovery nor any
per-namespace query (the trace is only the all-namespaces query). -/
theorem nonforbidden_error_returned_unchanged (b : Backend) (e : Err)
    (opts : ListOpts) (d : Except Err (List String))
    (hAll : b.listAll = .error e) (hNF : isForbidden e = false) :
    getStacksWithAllNamespaces b d opts = ⟨.error e, [Query.all], opts⟩ := by
  simp [getStacksWithAllNamespaces, hAll, hNF]

/-- Witness for C2: a backend failing with a generic backend error makes
aggregation return exactly that error, with no discovery and no
per-namespace query. -/
theorem nonforbidden_error_returned_unchanged_witness :
    getStacksWithAllNamespaces demoBackendErr (.ok ["a"]) demoOpts =
      ⟨.error (.backend "connection refused"), [Query.all], demoOpts⟩ :=
  nonforbidden_error_returned_unchanged demoBackendErr
    (.backend "connection refused") demoOpts (.ok ["a"]) rfl rfl

/-- C3 counterexample: when discovery itself fails, the error surfaced to
the caller is NOT the discovery error — the code logs the discovery
failure and returns the original authorization-denied error
(kubernetes/list.go lines 38-42), refuting the claim that the discovery
error itself is the one returned. -/
theorem discovery_error_not_surfaced :
    (getStacksWithAllNamespaces demoBackend
        (.error (.transport "connection refused")) demoOpts).result =
      .error (.forbidden "stacks is forbidden") ∧
    Err.forbidden "stacks is forbidden" ≠ Err.transport "connection refused" :=
  ⟨rfl, by decide⟩

/-- C3 (amended): no error leads to a partial result: any error aborts the
whole listing; errors of the all-namespaces query and of the
per-namespace queries are surfaced as-is, but when discovery fails during
the fallback, the original authorization-denied error (not the discovery
error) is the one returned, the discovery error being only logged. -/
theorem first_error_aborts_discovery_error_logged (b : Backend)
    (opts : ListOpts) :
    (∀ e d, b.listAll = .error e → isForbidden e = false →
      getStacksWithAllNamespaces b d opts = ⟨.error e, [Query.all], opts⟩) ∧
    (∀ e eD, b.listAll = .error e → isForbidden e = true →
      getStacksWithAllNamespaces b (.error eD) opts =
        ⟨.error e, [Query.all, Query.discovery], opts⟩) ∧
    (∀ (e e2 : Err) (rs : String → List Stack) (pre : List String)
        (bad : String) (post : List String),
      b.listAll = .error e → isForbidden e = true →
      (∀ nm ∈ pre, b.listInNamespace nm = .ok (rs nm)) →
      b.listInNamespace bad = .error e2 →
      (getStacksWithAllNamespaces b (.ok (pre ++ bad :: post)) opts).result =
        .error e2) := by
  refine ⟨?_, ?_, ?_⟩
  · intro e d hAll hNF
    simp [getStacksWithAllNamespaces, hAll, hNF]
  · intro e eD hAll hF
    simp [getStacksWithAllNamespaces, hAll, hF]
  · intro e e2 rs pre bad post hAll hF hok hbad
    rw [getStacksWithAllNamespaces_fallback b e _ opts hAll hF,
      listEachT_error b rs e2 bad hbad pre post [] hok]

/-- Witness for the amended C3 at concrete backends: a generic error is
surfaced as-is; a forbidden error followed by a failed discovery returns
the forbidden error; a failing per-namespace query surfaces its own
error. -/
theorem first_error_aborts_discovery_error_logged_witness :
    getStacksWithAllNamespaces demoBackendErr (.ok []) demoOpts =
      ⟨.error (.backend "connection refused"), [Query.all], demoOpts⟩ ∧
    getStacksWithAllNamespaces demoBackend (.error (.decode "bad json")) demoOpts =
      ⟨.error (.forbidden "stacks is forbidden"),
        [Query.all, Query.discovery], demoOpts⟩ ∧
    (getStacksWithAllNamespaces demoBackend (.ok ["c"]) demoOpts).result =
      .error (.backend "namespace not found") := by
  refine ⟨?_, ?_, ?_⟩
  · exact (first_error_aborts_discovery_error_logged demoBackendErr demoOpts).1
      (.backend "connection refused") (.ok []) rfl rfl
  · exact (first_error_aborts_discovery_error_logged demoBackend demoOpts).2.1
      (.forbidden "stacks is forbidden") (.decode "bad json") rfl rfl
  · exact (first_error_aborts_discovery_error_logged demoBackend demoOpts).2.2
      (.forbidden "stacks is forbidden") (.backend "namespace not found")
      demoRs [] "c" [] rfl rfl (by decide) (by decide)

/-- C7 counterexample: the per-namespace query sequence is NOT
deterministic across runs — the source iterates a Go map
(`for nm := range mnms`), whose iteration order is unspecified and
randomised between runs, so two valid iteration orders of the same
de-duplicated namespace set can yield the two queries in different
orders. -/
theorem namespace_query_order_not_deterministic :
    ¬ ∀ (b : Backend) (nms ord₁ ord₂ : List String),
        IsIterationOrder nms ord₁ → IsIterationOrder nms ord₂ →
        (getStacksWithNamespacesT b ord₁).2 = (getStacksWithNamespacesT b ord₂).2 := by
  intro h
  have h1 : IsIterationOrder ["a", "b"] ["a", "b"] :=
    ⟨by decide, fun x => Iff.rfl⟩
  have h2 : IsIterationOrder ["a", "b"] ["b", "a"] := by
    refine ⟨by decide, fun x => ?_⟩
    simp only [List.mem_cons, List.not_mem_nil, or_false]
    tauto
  have hc := h demoBackend ["a", "b"] ["a", "b"] ["b", "a"] h1 h2
  have hne : (getStacksWithNamespacesT demoBackend ["a", "b"]).2 ≠
      (getStacksWithNamespacesT demoBackend ["b", "a"]).2 := by decide
  exact hne hc

/-- C7 (amended): for a fixed explicit namespace list with
`allNamespaces=false`, the SET of per-namespace queries the resolver
produces is deterministic across runs: any two map iteration orders of
the same input are permutations of one another, and (when the queried
namespaces all succeed) the two issued query traces are permutations of
one another; the issuing order itself may differ between runs. -/
theorem namespace_query_set_deterministic (b : Backend)
    (nms ord₁ ord₂ : List String) (rs : String → List Stack)
    (h₁ : IsIterationOrder nms ord₁) (h₂ : IsIterationOrder nms ord₂)
    (hok : ∀ nm ∈ nms, b.listInNamespace nm = .ok (rs nm)) :
    ord₁.Perm ord₂ ∧
      ((getStacksWithNamespacesT b ord₁).2).Perm
        ((getStacksWithNamespacesT b ord₂).2) := by
  have hperm : ord₁.Perm ord₂ :=
    (List.perm_ext_iff_of_nodup h₁.1 h₂.1).mpr
      (fun a => (h₁.2 a).trans (h₂.2 a).symm)
  refine ⟨hperm, ?_⟩
  have t₁ : (getStacksWithNamespacesT b ord₁).2 = ord₁.map Query.inNamespace := by
    rw [getStacksWithNamespacesT,
      listEachT_ok b rs ord₁ [] (fun nm hm => hok nm ((h₁.2 nm).mp hm))]
  have t₂ : (getStacksWithNamespacesT b ord₂).2 = ord₂.map Query.inNamespace := by
    rw [getStacksWithNamespacesT,
      listEachT_ok b rs ord₂ [] (fun nm hm => hok nm ((h₂.2 nm).mp hm))]
  rw [t₁, t₂]
  exact hperm.map _

/-- Witness for the amended C7: for input namespace list
`["a", "b", "a"]` the two iteration orders `["a", "b"]` and `["b", "a"]`
are permutations, and so are the issued query traces. -/
theorem namespace_query_set_deterministic_witness :
    (["a", "b"] : List String).Perm ["b", "a"] ∧
      ((getStacksWithNamespacesT demoBackend ["a", "b"]).2).Perm
        ((getStacksWithNamespacesT demoBackend ["b", "a"]).2) := by
  refine namespace_query_set_deterministic demoBackend ["a", "b", "a"]
    ["a", "b"] ["b", "a"] demoRs ?_ ?_ (by decide)
  · refine ⟨by decide, fun x => ?_⟩
    simp only [List.mem_cons, List.not_mem_nil, or_false]
    tauto
  · refine ⟨by decide, fun x => ?_⟩
    simp only [List.mem_cons, List.not_mem_nil, or_false]
    tauto

/-- C8: with an explicit namespace list and `allNamespaces=false`, each
distinct namespace is queried exactly once — duplicates in the caller's
list are collapsed by the map-based resolver — and an empty explicit
namespace list yields zero backend queries and an empty, non-error
result. -/
theorem namespaces_queried_once_and_empty_ok (b : Backend) :
    (∀ (nms ord : List String) (rs : String → List Stack),
      IsIterationOrder nms ord →
      (∀ nm ∈ nms, b.listInNamespace nm = .ok (rs nm)) →
      (getStacksWithNamespacesT b ord).2 = ord.map Query.inNamespace ∧
      ((getStacksWithNamespacesT b ord).2).Nodup ∧
      (∀ nm, Query.inNamespace nm ∈ (getStacksWithNamespacesT b ord).2 ↔
        nm ∈ nms)) ∧
    (∀ ord, IsIterationOrder [] ord →
      getStacksWithNamespacesT b ord = (.ok [], [])) := by
  constructor
  · intro nms ord rs hio hok
    have t : (getStacksWithNamespacesT b ord).2 = ord.map Query.inNamespace := by
      rw [getStacksWithNamespacesT,
        listEachT_ok b rs ord [] (fun nm hm => hok nm ((hio.2 nm).mp hm))]
    have hinj : Function.Injective Query.inNamespace := by
      intro x y hxy
      cases hxy
      rfl
    refine ⟨t, ?_, ?_⟩
    · rw [t]
      exact List.Nodup.map hinj hio.1
    · intro nm
      rw [t]
      constructor
      · intro hm
        rcases List.mem_map.mp hm with ⟨x, hx, hxe⟩
        have hxn := hinj hxe
        subst hxn
        exact (hio.2 _).mp hx
      · intro hm
        exact List.mem_map.mpr ⟨nm, (hio.2 nm).mpr hm, rfl⟩
  · intro ord hio
    have hnil : ord = [] := List.eq_nil_iff_forall_not_mem.mpr
      (fun a ha => List.not_mem_nil a ((hio.2 a).mp ha))
    subst hnil
    rfl

/-- Witness for C8: the duplicated input `["a", "b", "a"]` is queried via
the de-duplicated order `["b", "a"]`, each namespace exactly once; the
empty input yields zero queries and an empty ok result. -/
theorem namespaces_queried_once_and_empty_ok_witness :
    ((getStacksWithNamespacesT demoBackend ["b", "a"]).2 =
        ["b", "a"].map Query.inNamespace ∧
      ((getStacksWithNamespacesT demoBackend ["b", "a"]).2).Nodup ∧
      (∀ nm, Query.inNamespace nm ∈
          (getStacksWithNamespacesT demoBackend ["b", "a"]).2 ↔
        nm ∈ ["a", "b", "a"])) ∧
    getStacksWithNamespacesT demoBackend [] = (.ok [], []) := by
  constructor
  · refine (namespaces_queried_once_and_empty_ok demoBackend).1
      ["a", "b", "a"] ["b", "a"] demoRs ?_ (by decide)
    refine ⟨by decide, fun x => ?_⟩
    simp only [List.mem_cons, List.not_mem_nil, or_false]
    tauto
  · exact (namespaces_queried_once_and_empty_ok demoBackend).2 []
      ⟨by decide, fun x => Iff.rfl⟩

/-- C9: the caller's `ListRequest` is not mutated by aggregation: Go
passes `options.List` by value, so the clearing of `AllNamespaces` in the
discovery fallback only affects the callee's working copy (which does end
up with `allNamespaces = false`), and the caller's request after
aggregation equals the request before it. -/
theorem caller_request_not_mutated (b : Backend)
    (d : Except Err (List String)) (opts : ListOpts) :
    (callerInvoke b d opts).2 = opts ∧
    (∀ (e : Err) (nms : List String), b.listAll = .error e →
      isForbidden e = true → d = .ok nms →
      (getStacksWithAllNamespaces b d opts).optsAfter =
        { opts with allNamespaces := false }) := by
  refine ⟨rfl, ?_⟩
  intro e nms hAll hF hd
  subst hd
  rw [getStacksWithAllNamespaces_fallback b e nms opts hAll hF]

/-- Witness for C9: at a concrete denied backend the caller still holds
its original request (with `allNamespaces = true`) after aggregation,
while the callee's working copy ended with `allNamespaces = false`. -/
theorem caller_request_not_mutated_witness :
    (callerInvoke demoBackend (.ok ["a", "b"]) demoOpts).2 = demoOpts ∧
    (getStacksWithAllNamespaces demoBackend (.ok ["a", "b"]) demoOpts).optsAfter =
      { demoOpts with allNamespaces := false } :=
  ⟨(caller_request_not_mutated demoBackend (.ok ["a", "b"]) demoOpts).1,
    (caller_request_not_mutated demoBackend (.ok ["a", "b"]) demoOpts).2
      (.forbidden "stacks is forbidden") ["a", "b"] rfl rfl rfl⟩

/-- C5: when both backends are present (`HasAll`) and the caller did not
explicitly set the namespace selector, the effective request has
`allNamespaces = true` — even though the raw default namespace value is
`["default"]` — and when the caller did set a namespace, the request is
left exactly as given. -/
theorem both_backends_unset_namespace_forces_all :
    (∀ opts : ListOpts, effectiveOpts true false opts =
      { opts with allNamespaces := true }) ∧
    (effectiveOpts true false ⟨"", ["default"], false⟩).allNamespaces = true ∧
    (∀ (hasAll : Bool) (opts : ListOpts), effectiveOpts hasAll true opts = opts) := by
  refine ⟨fun opts => by simp [effectiveOpts], by simp [effectiveOpts],
    fun hasAll opts => by simp [effectiveOpts]⟩

theorem makeRequest_trace_subset (tlsOptions : Option TLSOptions)
    (tlsClient : TLSOptions → Except Err Unit)
    (get : URL → Except Err HTTPResponse) (endpoint : URL)
    (handler : HTTPResponse → Except Err (List String)) :
    (makeRequest tlsOptions tlsClient get endpoint handler).2 ⊆ [endpoint] := by
  cases tlsOptions with
  | none => simp [makeRequest]
  | some t =>
    cases htc : tlsClient t with
    | error e => simp [makeRequest, htc]
    | ok u =>
      cases hg : get endpoint with
      | error e => simp [makeRequest, htc, hg]
      | ok resp => simp [makeRequest, htc, hg]

/-- C4: when no TLS client material is configured, the discovery client
fails with the configuration error before issuing any network request
(the request trace is empty on every such path); and every request the
discovery client ever issues goes to the endpoint rewritten to the
`"https"` scheme, so discovery is never attempted over an insecure
transport. -/
theorem discovery_requires_tls (tlsClient : TLSOptions → Except Err Unit)
    (get : URL → Except Err HTTPResponse)
    (decodeList : String → Option (List String)) :
    (∀ u : URL, getUserVisibleNamespaces (.ok u) none tlsClient get decodeList =
      (.error (.config "missing TLS options for https"), [])) ∧
    (∀ parseHost, (getUserVisibleNamespaces parseHost none tlsClient get
      decodeList).2 = []) ∧
    (∀ (parseHost : Except Err URL) (tlsOptions : Option TLSOptions)
        (u : URL),
      u ∈ (getUserVisibleNamespaces parseHost tlsOptions tlsClient get
        decodeList).2 →
      u.scheme = "https") := by
  refine ⟨fun u => rfl, ?_, ?_⟩
  · intro parseHost
    cases parseHost with
    | error e => rfl
    | ok u => rfl
  · intro parseHost tlsOptions u hu
    cases parseHost with
    | error e => simp [getUserVisibleNamespaces] at hu
    | ok ep =>
      have hsub := makeRequest_trace_subset tlsOptions tlsClient get
        { ep with scheme := "https", path := "/kubernetesNamespaces" }
        (namespacesHandler decodeList)
      have hu2 := hsub hu
      rw [List.mem_singleton] at hu2
      subst hu2
      rfl

/-- Witness for C4: with no TLS material the discovery call returns the
configuration error having issued zero requests, and with TLS material
present the single issued request uses the `"https"` scheme. -/
theorem discovery_requires_tls_witness :
    getUserVisibleNamespaces (.ok ⟨"tcp", "example:2376", ""⟩) none
        demoTlsClient demoGet demoDecode =
      (.error (.config "missing TLS options for https"), []) ∧
    URL.scheme ⟨"https", "example:2376", "/kubernetesNamespaces"⟩ = "https" := by
  constructor
  · exact (discovery_requires_tls demoTlsClient demoGet demoDecode).1
      ⟨"tcp", "example:2376", ""⟩
  · exact (discovery_requires_tls demoTlsClient demoGet demoDecode).2.2
      (.ok ⟨"tcp", "example:2376", ""⟩) (some ⟨"pem"⟩)
      ⟨"https", "example:2376", "/kubernetesNamespaces"⟩ (by decide)

/-- C10: `WrapCli` uses the kubeconfig context namespace whenever the
requested namespace equals the literal `"default"`, and honours the
requested namespace verbatim only when it differs from `"default"`; in
particular a caller explicitly asking for `"default"` is silently
redirected to whatever namespace the kubeconfig configures. -/
theorem wrapCli_default_namespace_redirect (configNamespace ns : String) :
    wrapCliNamespace configNamespace "default" = configNamespace ∧
    (ns ≠ "default" → wrapCliNamespace configNamespace ns = ns) ∧
    wrapCliNamespace "kube-team" "default" ≠ "default" := by
  refine ⟨by simp [wrapCliNamespace], fun h => by simp [wrapCliNamespace, h],
    by decide⟩

/-- Witness for C10: with kubeconfig namespace `"kube-team"`, asking for
`"default"` yields `"kube-team"` while asking for `"web"` yields
`"web"`. -/
theorem wrapCli_default_namespace_redirect_witness :
    wrapCliNamespace "kube-team" "default" = "kube-team" ∧
    wrapCliNamespace "kube-team" "web" = "web" :=
  ⟨(wrapCli_default_namespace_redirect "kube-team" "web").1,
    (wrapCli_default_namespace_redirect "kube-team" "web").2.1 (by decide)⟩

/-- C6: the result sorter imposes a total order over the merged stack
records by name using natural ordering — embedded digit runs compared
numerically, so `"stack2"` sorts before `"stack10"` and
`["svc10", "svc2", "svc1"]` sorts to `["svc1", "svc2", "svc10"]` — and
the sort is a stable permutation: records with equal names keep their
input order. -/
theorem sorter_natural_order_stable :
    sortStacks
        [⟨"svc10", 1, "Kubernetes", "x"⟩, ⟨"svc2", 2, "Kubernetes", "y"⟩,
          ⟨"svc1", 3, "Kubernetes", "z"⟩] =
      [⟨"svc1", 3, "Kubernetes", "z"⟩, ⟨"svc2", 2, "Kubernetes", "y"⟩,
        ⟨"svc10", 1, "Kubernetes", "x"⟩] ∧
    naturalLess "stack2" "stack10" = true ∧
    (∀ l : List Stack, (sortStacks l).Sorted SLE) ∧
    (∀ l : List Stack, (sortStacks l).Perm l) ∧
    (∀ (l : List Stack) (n : String),
      (sortStacks l).filter (fun s => s.name == n) =
        l.filter (fun s => s.name == n)) := by
  refine ⟨by decide, by decide, ?_, ?_, ?_⟩
  · intro l
    haveI : IsTotal Stack SLE := ⟨SLE_total⟩
    haveI : IsTrans Stack SLE := ⟨SLE_trans⟩
    exact List.sorted_insertionSort SLE l
  · intro l
    exact List.perm_insertionSort SLE l
  · intro l n
    have hmemname : ∀ s ∈ l.filter (fun s : Stack => s.name == n), s.name = n :=
      fun s hs => eq_of_beq (List.mem_filter.mp hs).2
    have hpw : (l.filter (fun s : Stack => s.name == n)).Pairwise SLE := by
      apply List.pairwise_of_forall_mem_list
      intro a ha b hb
      have han : a.name = n := hmemname a ha
      have hbn : b.name = n := hmemname b hb
      simp [SLE, stackLE, han, hbn, naturalLess_irrefl]
    have hsub : (l.filter (fun s : Stack => s.name == n)).Sublist (sortStacks l) :=
      List.sublist_insertionSort hpw (List.filter_sublist l)
    have hself : (l.filter (fun s : Stack => s.name == n)).filter
        (fun s : Stack => s.name == n) =
        l.filter (fun s : Stack => s.name == n) :=
      List.filter_eq_self.mpr (fun a ha => (List.mem_filter.mp ha).2)
    have hsub2 : (l.filter (fun s : Stack => s.name == n)).Sublist
        ((sortStacks l).filter (fun s : Stack => s.name == n)) := by
      rw [← hself]
      exact List.Sublist.filter _ hsub
    have hlen : ((sortStacks l).filter (fun s : Stack => s.name == n)).length =
        (l.filter (fun s : Stack => s.name == n)).length :=
      ((List.perm_insertionSort SLE l).filter _).length_eq
    exact (hsub2.eq_of_length hlen.symm).symm

end StackList
